import Mathlib

/-!
Shallow embedding of the `vampire-lib` API layer (`Api/VampireAPI.cpp`,
`Api/vampire_c_api.cpp`): the proof-DAG extractor, the reset controller,
the proving-invocation classification and the construction facade, together
with theorems settling the specification claims about them.

Machine integers of the source are modelled as `Nat` (the C++ values are
`unsigned` ids and counters that never overflow in the modelled scenarios).
Heap pointers to `Unit` objects are modelled by the unit's `number()`, the
pointer-linked derivation graph by a finite association list from unit
number to its `Inference` record.
-/

namespace VampireLib

/-- The `Api::ProofResult` enumeration (`VampireAPI.hpp`). -/
inductive ProofResult
  | PROOF
  | SATISFIABLE
  | TIMEOUT
  | MEMORY_LIMIT
  | UNKNOWN
  | INCOMPLETE
deriving DecidableEq

/-- The engine's `Shell::TerminationReason` enumeration.  The class lives in
the engine kernel, outside the API layer sources; the members named in the
`switch` of `prove` are taken from that switch, and the remaining members
(`ACTIVATION_LIMIT`, `INAPPROPRIATE`, `UNKNOWN`) stand for the termination
reasons the switch does not recognize. -/
inductive TerminationReason
  | REFUTATION
  | SATISFIABLE
  | TIME_LIMIT
  | INSTRUCTION_LIMIT
  | MEMORY_LIMIT
  | REFUTATION_NOT_FOUND
  | ACTIVATION_LIMIT
  | INAPPROPRIATE
  | UNKNOWN
deriving DecidableEq

/-- The kernel `Kernel::InferenceRule` tag.  The kernel enumeration has many
members; the ones surfaced by the C wrapper's `convert_inference_rule` are
listed, and `GENERIC` stands for every other rule tag. -/
inductive InferenceRule
  | INPUT
  | RESOLUTION
  | FACTORING
  | SUPERPOSITION
  | EQUALITY_RESOLUTION
  | EQUALITY_FACTORING
  | CLAUSIFY
  | GENERIC
deriving DecidableEq

/-- The kernel `Kernel::UnitInputType` tag (axiom / conjecture / negated
conjecture, plus `ASSUMPTION` standing for the remaining kernel members). -/
inductive UnitInputType
  | AXIOM
  | CONJECTURE
  | NEGATED_CONJECTURE
  | ASSUMPTION
deriving DecidableEq

/-- A unit's `Kernel::Inference` record as read by `extractProof`: the rule
tag, the input-type tag and the parent units (premises), each parent denoted
by its `number()`, in the record's own iteration order. -/
structure Inference where
  rule : InferenceRule
  inputType : UnitInputType
  premises : List Nat
deriving DecidableEq

/-- The derivation graph reachable from a refutation: a finite map from a
unit's `number()` to its inference record (the pointer-linked `Unit` heap,
keyed by unit number). -/
abbrev Dag := List (Nat × Inference)

/-- Look up the inference record of the unit with the given number. -/
def findInf : Dag → Nat → Option Inference
  | [], _ => none
  | (k, i) :: rest, n => if k = n then some i else findInf rest n

/-- `current->inference()` of the unit numbered `n`.  In the C++ heap every
`Unit*` dereferences, so a number missing from the finite map is read as a
unit with no premises. -/
def infOf (g : Dag) (n : Nat) : Inference :=
  (findInf g n).getD ⟨InferenceRule.INPUT, UnitInputType.AXIOM, []⟩

/-- `Api::ProofStep` (`VampireAPI.hpp`): id, rule tag, input-type tag and the
premise ids in inference order.  (The `unit` back-pointer field is the unit's
number, i.e. `id` itself, and is not repeated.) -/
structure ProofStep where
  id : Nat
  rule : InferenceRule
  inputType : UnitInputType
  premiseIds : List Nat
deriving DecidableEq

/-- Every unit number mentioned anywhere in the graph or as the root: the
keys, all premise ids, and the root.  (Bookkeeping for the embedding: every
id the traversal can ever push lies in this list.) -/
def allIds (g : Dag) (r : Nat) : List Nat :=
  r :: g.foldr (fun p acc => p.1 :: (p.2.premises ++ acc)) []

/-- The largest premise count of any inference record in the graph
(bookkeeping for the fuel bound of the traversal). -/
def maxPrem (g : Dag) : Nat :=
  g.foldr (fun p acc => max p.2.premises.length acc) 0

/-- The DFS loop of `extractProof`: pop `current` from the work stack, skip
it if its number was already visited, otherwise record it in discovery order
and push its premises (pushing in premise order, so the stack top is the
last premise).  The stack holds unit numbers; `fuel` is structural
bookkeeping for the embedding — `extractProof` below supplies enough fuel
that the zero-fuel case is never reached (proved in `dfsLoop_spec`). -/
def dfsLoop (g : Dag) : Nat → List Nat → List Nat → List Nat → List Nat
  | _, [], _, order => order
  | 0, _ :: _, _, order => order
  | fuel + 1, u :: rest, visited, order =>
    if u ∈ visited then
      dfsLoop g fuel rest visited order
    else
      dfsLoop g fuel ((infOf g u).premises.reverse ++ rest)
        (u :: visited) (order ++ [u])

/-- `Api::extractProof` (`VampireAPI.cpp`): a null refutation yields the
empty step list; otherwise collect all units of the proof DAG by the
stack-based DFS above, reverse the discovery order, and materialize a
`ProofStep` for each unit. -/
def extractProof (g : Dag) (refutation : Option Nat) : List ProofStep :=
  match refutation with
  | none => []
  | some r =>
    let unitsInOrder :=
      dfsLoop g ((allIds g r).length * (1 + maxPrem g) + 1) [r] [] []
    (unitsInOrder.reverse).map fun n =>
      { id := n
        rule := (infOf g n).rule
        inputType := (infOf g n).inputType
        premiseIds := (infOf g n).premises }

/-- The topological-order contract on a step sequence: every premise id of
the step at position `p` is the id of a step at a position strictly before
`p`. -/
def topoOk (steps : List ProofStep) : Bool :=
  (List.range steps.length).all fun p =>
    ((steps.getD p ⟨0, InferenceRule.INPUT, UnitInputType.AXIOM, []⟩).premiseIds).all
      fun pid => ((steps.take p).map ProofStep.id).contains pid

/-- Reachability in the derivation graph by following parent ("derived
from") edges from the refutation. -/
inductive Reach (g : Dag) (r : Nat) : Nat → Prop
  | refl : Reach g r r
  | step {u p : Nat} : Reach g r u → p ∈ (infOf g u).premises → Reach g r p

theorem findInf_mem {g : Dag} {n : Nat} {i : Inference}
    (h : findInf g n = some i) : (n, i) ∈ g := by
  induction g with
  | nil => simp [findInf] at h
  | cons hd tl ih =>
    obtain ⟨k, j⟩ := hd
    by_cases hk : k = n
    · subst hk
      simp [findInf] at h
      subst h
      exact List.mem_cons_self _ _
    · simp [findInf, hk] at h
      exact List.mem_cons_of_mem _ (ih h)

theorem mem_allIds_of_mem {g : Dag} {r : Nat} {e : Nat × Inference}
    (h : e ∈ g) : e.1 ∈ allIds g r ∧ ∀ q ∈ e.2.premises, q ∈ allIds g r := by
  induction g with
  | nil => cases h
  | cons hd tl ih =>
    have expand : allIds (hd :: tl) r
        = r :: hd.1 :: (hd.2.premises ++ tl.foldr (fun p acc => p.1 :: (p.2.premises ++ acc)) []) := by
      simp [allIds]
    rcases List.mem_cons.1 h with h | h
    · subst h
      constructor
      · rw [expand]; simp
      · intro q hq
        rw [expand]
        simp [hq]
    · obtain ⟨h1, h2⟩ := ih h
      have sub : ∀ x, x ∈ allIds tl r → x ∈ allIds (hd :: tl) r := by
        intro x hx
        rw [expand]
        simp only [allIds, List.mem_cons, List.mem_append] at hx ⊢
        tauto
      exact ⟨sub _ h1, fun q hq => sub _ (h2 q hq)⟩

theorem mem_allIds_of_premise {g : Dag} {r u p : Nat}
    (hp : p ∈ (infOf g u).premises) : p ∈ allIds g r := by
  unfold infOf at hp
  cases hf : findInf g u with
  | none => rw [hf] at hp; simp at hp
  | some i =>
    rw [hf] at hp
    simp at hp
    exact (mem_allIds_of_mem (findInf_mem hf)).2 p hp

theorem root_mem_allIds (g : Dag) (r : Nat) : r ∈ allIds g r := by
  simp [allIds]

theorem premises_length_le_maxPrem (g : Dag) (u : Nat) :
    (infOf g u).premises.length ≤ maxPrem g := by
  unfold infOf
  cases hf : findInf g u with
  | none => simp
  | some i =>
    simp only [Option.getD_some]
    have hm : (u, i) ∈ g := findInf_mem hf
    clear hf
    induction g with
    | nil => cases hm
    | cons hd tl ih =>
      simp only [maxPrem, List.foldr_cons]
      rcases List.mem_cons.1 hm with h | h
      · rw [← h]
        exact le_max_left _ _
      · exact le_trans (ih h) (le_max_right _ _)

/-- At loop exit (or whenever the visited set is closed under premises and
holds the root) the discovery list enumerates exactly the reachable units. -/
theorem visited_closed_spec (g : Dag) (r : Nat) (visited order : List Nat)
    (h1 : order.Nodup) (h2 : ∀ x, x ∈ order ↔ x ∈ visited)
    (h4 : ∀ x ∈ visited, Reach g r x)
    (h5 : ∀ u ∈ visited, ∀ p ∈ (infOf g u).premises, p ∈ visited)
    (h7 : r ∈ visited) :
    order.Nodup ∧ (∀ x, x ∈ order ↔ Reach g r x) := by
  refine ⟨h1, fun x => ⟨fun hx => h4 x ((h2 x).1 hx), fun hx => ?_⟩⟩
  rw [h2]
  induction hx with
  | refl => exact h7
  | step _ hp ih => exact h5 _ ih _ hp

/-- Invariant lemma for the DFS loop of `extractProof`: starting from any
loop state satisfying the traversal invariants with enough fuel, the
returned discovery order is duplicate-free, enumerates exactly the units
reachable from the refutation, and extends the discovery order accumulated
so far. -/
theorem dfsLoop_spec (g : Dag) (r : Nat) :
    ∀ (fuel : Nat) (stack visited order : List Nat),
      ((allIds g r).toFinset \ visited.toFinset).card * (1 + maxPrem g) + stack.length ≤ fuel →
      order.Nodup →
      (∀ x, x ∈ order ↔ x ∈ visited) →
      (∀ x ∈ stack, Reach g r x) →
      (∀ x ∈ visited, Reach g r x) →
      (∀ u ∈ visited, ∀ p ∈ (infOf g u).premises, p ∈ visited ∨ p ∈ stack) →
      (∀ x ∈ stack, x ∈ allIds g r) →
      (r ∈ visited ∨ r ∈ stack) →
      (dfsLoop g fuel stack visited order).Nodup ∧
      (∀ x, x ∈ dfsLoop g fuel stack visited order ↔ Reach g r x) ∧
      ∃ t, dfsLoop g fuel stack visited order = order ++ t := by
  intro fuel
  induction fuel with
  | zero =>
    intro stack visited order hfuel h1 h2 h3 h4 h5 h6 h7
    match stack, hfuel, h5, h7 with
    | [], _, h5, h7 =>
      have h5' : ∀ u ∈ visited, ∀ p ∈ (infOf g u).premises, p ∈ visited := by
        intro u hu p hp
        rcases h5 u hu p hp with h | h
        · exact h
        · cases h
      have h7' : r ∈ visited := by
        rcases h7 with h | h
        · exact h
        · cases h
      obtain ⟨a, b⟩ := visited_closed_spec g r visited order h1 h2 h4 h5' h7'
      exact ⟨a, b, ⟨[], by simp [dfsLoop]⟩⟩
    | u :: rest, hfuel, _, _ => simp at hfuel
  | succ fuel ih =>
    intro stack visited order hfuel h1 h2 h3 h4 h5 h6 h7
    match stack, hfuel, h3, h5, h6, h7 with
    | [], _, _, h5, _, h7 =>
      have h5' : ∀ u ∈ visited, ∀ p ∈ (infOf g u).premises, p ∈ visited := by
        intro u hu p hp
        rcases h5 u hu p hp with h | h
        · exact h
        · cases h
      have h7' : r ∈ visited := by
        rcases h7 with h | h
        · exact h
        · cases h
      obtain ⟨a, b⟩ := visited_closed_spec g r visited order h1 h2 h4 h5' h7'
      exact ⟨a, b, ⟨[], by simp [dfsLoop]⟩⟩
    | u :: rest, hfuel, h3, h5, h6, h7 =>
      by_cases hu : u ∈ visited
      · rw [show dfsLoop g (fuel + 1) (u :: rest) visited order
              = dfsLoop g fuel rest visited order by simp [dfsLoop, hu]]
        apply ih rest visited order
        · simp only [List.length_cons] at hfuel
          omega
        · exact h1
        · exact h2
        · exact fun x hx => h3 x (List.mem_cons_of_mem _ hx)
        · exact h4
        · intro v hv p hp
          rcases h5 v hv p hp with h | h
          · exact Or.inl h
          · rcases List.mem_cons.1 h with h | h
            · exact Or.inl (h ▸ hu)
            · exact Or.inr h
        · exact fun x hx => h6 x (List.mem_cons_of_mem _ hx)
        · rcases h7 with h | h
          · exact Or.inl h
          · rcases List.mem_cons.1 h with h | h
            · exact Or.inl (h ▸ hu)
            · exact Or.inr h
      · rw [show dfsLoop g (fuel + 1) (u :: rest) visited order
              = dfsLoop g fuel ((infOf g u).premises.reverse ++ rest)
                  (u :: visited) (order ++ [u]) by simp [dfsLoop, hu]]
        have hRu : Reach g r u := h3 u (List.mem_cons_self _ _)
        have hres := ih ((infOf g u).premises.reverse ++ rest) (u :: visited) (order ++ [u])
          (by
            -- fuel accounting: visiting `u` removes it from the unvisited set
            have huA : u ∈ (allIds g r).toFinset :=
              List.mem_toFinset.2 (h6 u (List.mem_cons_self _ _))
            have huS : u ∈ (allIds g r).toFinset \ visited.toFinset :=
              Finset.mem_sdiff.2 ⟨huA, fun hc => hu (List.mem_toFinset.1 hc)⟩
            have hcv : ((allIds g r).toFinset \ (u :: visited).toFinset).card + 1
                = ((allIds g r).toFinset \ visited.toFinset).card := by
              rw [List.toFinset_cons, Finset.sdiff_insert, Finset.card_erase_of_mem huS]
              have : 0 < ((allIds g r).toFinset \ visited.toFinset).card :=
                Finset.card_pos.2 ⟨u, huS⟩
              omega
            have hp : (infOf g u).premises.length ≤ maxPrem g :=
              premises_length_le_maxPrem g u
            have hmul : ((allIds g r).toFinset \ visited.toFinset).card * (1 + maxPrem g)
                = ((allIds g r).toFinset \ (u :: visited).toFinset).card * (1 + maxPrem g)
                  + (1 + maxPrem g) := by
              rw [← hcv, Nat.add_mul, Nat.one_mul]
            simp only [List.length_append, List.length_reverse, List.length_cons] at hfuel ⊢
            omega)
          (by
            have hnotin : u ∉ order := fun hc => hu ((h2 u).1 hc)
            simp [List.nodup_append, h1, hnotin])
          (by
            intro x
            simp only [List.mem_append, List.mem_singleton, List.mem_cons, h2 x]
            tauto)
          (by
            intro x hx
            rcases List.mem_append.1 hx with h | h
            · exact Reach.step hRu (List.mem_reverse.1 h)
            · exact h3 x (List.mem_cons_of_mem _ h))
          (by
            intro x hx
            rcases List.mem_cons.1 hx with h | h
            · exact h ▸ hRu
            · exact h4 x h)
          (by
            intro v hv p hp
            rcases List.mem_cons.1 hv with h | h
            · subst h
              exact Or.inr (List.mem_append.2 (Or.inl (List.mem_reverse.2 hp)))
            · rcases h5 v h p hp with h' | h'
              · exact Or.inl (List.mem_cons_of_mem _ h')
              · rcases List.mem_cons.1 h' with h' | h'
                · exact Or.inl (h' ▸ List.mem_cons_self _ _)
                · exact Or.inr (List.mem_append.2 (Or.inr h')))
          (by
            intro x hx
            rcases List.mem_append.1 hx with h | h
            · exact mem_allIds_of_premise (List.mem_reverse.1 h)
            · exact h6 x (List.mem_cons_of_mem _ h))
          (by
            rcases h7 with h | h
            · exact Or.inl (List.mem_cons_of_mem _ h)
            · rcases List.mem_cons.1 h with h | h
              · exact Or.inl (h ▸ List.mem_cons_self _ _)
              · exact Or.inr (List.mem_append.2 (Or.inr h)))
        obtain ⟨a, b, t, ht⟩ := hres
        exact ⟨a, b, ⟨u :: t, by rw [ht]; simp⟩⟩

/-- The id sequence returned by `extractProof` on a non-null refutation is
the reversed discovery order. -/
theorem extractProof_map_id (g : Dag) (r : Nat) :
    (extractProof g (some r)).map ProofStep.id
      = (dfsLoop g ((allIds g r).length * (1 + maxPrem g) + 1) [r] [] []).reverse := by
  simp only [extractProof, List.map_map]
  have h : ∀ l : List Nat,
      List.map (ProofStep.id ∘ fun n =>
        ({ id := n, rule := (infOf g n).rule, inputType := (infOf g n).inputType,
           premiseIds := (infOf g n).premises } : ProofStep)) l = l := by
    intro l
    induction l with
    | nil => rfl
    | cons a t ih => simp only [List.map_cons, ih]; rfl
  exact h _

/-- Specification of `extractProof` on a non-null refutation handle: the id
sequence is duplicate-free, enumerates exactly the units reachable from the
refutation, and ends with the refutation's own id. -/
theorem extractProof_some_spec (g : Dag) (r : Nat) :
    ((extractProof g (some r)).map ProofStep.id).Nodup ∧
    (∀ x, x ∈ (extractProof g (some r)).map ProofStep.id ↔ Reach g r x) ∧
    ((extractProof g (some r)).map ProofStep.id).getLast? = some r := by
  rw [extractProof_map_id]
  set W := 1 + maxPrem g with hW
  set len := (allIds g r).length with hlen
  have hstep : dfsLoop g (len * W + 1) [r] [] []
      = dfsLoop g (len * W) (infOf g r).premises.reverse [r] [r] := by
    simp [dfsLoop]
  have hfuel : ((allIds g r).toFinset \ ([r] : List Nat).toFinset).card * W
      + ((infOf g r).premises.reverse).length ≤ len * W := by
    have hrmem : r ∈ (allIds g r).toFinset := List.mem_toFinset.2 (root_mem_allIds g r)
    have hcard : ((allIds g r).toFinset \ ([r] : List Nat).toFinset).card + 1
        = (allIds g r).toFinset.card := by
      have : ([r] : List Nat).toFinset = ({r} : Finset Nat) := by simp
      rw [this, Finset.sdiff_singleton_eq_erase, Finset.card_erase_of_mem hrmem]
      have : 0 < (allIds g r).toFinset.card := Finset.card_pos.2 ⟨r, hrmem⟩
      omega
    have hcl : (allIds g r).toFinset.card ≤ len := (allIds g r).toFinset_card_le
    have hpl : (infOf g r).premises.length ≤ maxPrem g := premises_length_le_maxPrem g r
    have hlenpos : 1 ≤ len := by
      rw [hlen]
      simp [allIds]
    have hmul : ((allIds g r).toFinset \ ([r] : List Nat).toFinset).card * W + W ≤ len * W := by
      have : ((allIds g r).toFinset \ ([r] : List Nat).toFinset).card + 1 ≤ len := by omega
      calc ((allIds g r).toFinset \ ([r] : List Nat).toFinset).card * W + W
          = (((allIds g r).toFinset \ ([r] : List Nat).toFinset).card + 1) * W := by
            rw [Nat.add_mul, Nat.one_mul]
        _ ≤ len * W := Nat.mul_le_mul_right _ this
    simp only [List.length_reverse]
    omega
  have hres := dfsLoop_spec g r (len * W) ((infOf g r).premises.reverse) [r] [r]
    hfuel
    (by simp)
    (by intro x; simp)
    (by
      intro x hx
      exact Reach.step Reach.refl (List.mem_reverse.1 hx))
    (by
      intro x hx
      rcases List.mem_cons.1 hx with h | h
      · exact h ▸ Reach.refl
      · cases h)
    (by
      intro v hv p hp
      rcases List.mem_cons.1 hv with h | h
      · subst h
        exact Or.inr (List.mem_reverse.2 hp)
      · cases h)
    (by
      intro x hx
      exact mem_allIds_of_premise (List.mem_reverse.1 hx))
    (Or.inl (List.mem_cons_self _ _))
  rw [hstep]
  obtain ⟨a, b, t, ht⟩ := hres
  refine ⟨List.nodup_reverse.2 a, fun x => by rw [List.mem_reverse]; exact b x, ?_⟩
  rw [ht]
  simp only [List.reverse_append, List.reverse_cons, List.reverse_nil, List.nil_append]
  exact List.getLast?_concat _

/-! ### Shared environment, signature and the reset controller

The shared environment is the process-wide mutable state touched by
`prepareForNextProof` and `reset` (`VampireAPI.cpp`).  The kernel classes it
aggregates (`Kernel::Signature`, `Shell::Statistics`, `Indexing::TermSharing`,
`Lib::Timer`, the static caches) live outside the API-layer sources, so their
state is modelled by explicit fields and each opaque call by its documented
effect; cache contents are abstracted to a `Nat` whose value `0` denotes the
cleared/invalidated state. -/

/-- A registered signature symbol: immutable name and arity, the mutable
usage counter incremented during search, and whether an operator type has
been set on it (the API sets a default type right after registration). -/
structure Symbol where
  name : String
  arity : Nat
  usageCnt : Nat
  typed : Bool
deriving DecidableEq

/-- `Symbol::resetUsageCnt`: zero the usage counter, touching nothing else. -/
def Symbol.resetUsageCnt (s : Symbol) : Symbol :=
  { s with usageCnt := 0 }

/-- The symbol table.  Modelled from the spec: the kernel `Signature` class
is not under the API sources; per the spec, "symbol registration returns a
dense integer id" and "re-registering an identical name and arity without an
intervening reset creates a second, independent symbol rather than returning
the first (no implicit deduplication)". -/
structure Signature where
  functions : List Symbol
  predicates : List Symbol
deriving DecidableEq

/-- Modelled from the spec: `Signature::addFunction` appends a fresh symbol
(usage counter zero, no type yet) and returns its dense id. -/
def Signature.addFunction (sig : Signature) (name : String) (arity : Nat) :
    Nat × Signature :=
  (sig.functions.length,
   { sig with functions := sig.functions ++ [⟨name, arity, 0, false⟩] })

/-- Modelled from the spec: `Signature::addPredicate`, same shape as
`Signature.addFunction`. -/
def Signature.addPredicate (sig : Signature) (name : String) (arity : Nat) :
    Nat × Signature :=
  (sig.predicates.length,
   { sig with predicates := sig.predicates ++ [⟨name, arity, 0, false⟩] })

/-- `getFunction(f)->setType(...)`: mark the function symbol `f` as typed
(the API always installs the default operator type). -/
def Signature.setFunctionTyped (sig : Signature) (f : Nat) : Signature :=
  let s := { sig.functions.getD f ⟨"", 0, 0, false⟩ with typed := true }
  { sig with functions := sig.functions.set f s }

/-- `getPredicate(p)->setType(...)`: mark the predicate symbol `p` as
typed. -/
def Signature.setPredicateTyped (sig : Signature) (p : Nat) : Signature :=
  let s := { sig.predicates.getD p ⟨"", 0, 0, false⟩ with typed := true }
  { sig with predicates := sig.predicates.set p s }

/-- Modelled from the spec: `Signature::addEquality` re-registers "the one
built-in equality predicate that every fresh symbol table must contain". -/
def Signature.addEquality (sig : Signature) : Signature :=
  { sig with predicates := sig.predicates ++ [⟨"=", 2, 0, true⟩] }

/-- The per-attempt statistics object (`Shell::Statistics`), restricted to
the fields the API layer reads or writes. -/
structure Statistics where
  terminationReason : TerminationReason
  activations : Nat
  discardedNonRedundantClauses : Nat
  inferencesSkippedDueToColors : Nat
  refutation : Option Nat
deriving DecidableEq

/-- Modelled from the spec: a fresh empty `Statistics` instance (all
counters zero, no termination reason, no refutation). -/
def freshStatistics : Statistics :=
  { terminationReason := TerminationReason.UNKNOWN
    activations := 0
    discardedNonRedundantClauses := 0
    inferencesSkippedDueToColors := 0
    refutation := none }

/-- The interning ("sharing") table, abstracted to the one piece of state
the reset controller touches: the cached equality argument orientations on
shared literals (`0` = no cached orientations). -/
structure TermSharing where
  eqArgOrderCache : Nat
deriving DecidableEq

/-- `TermSharing::resetEqualityArgumentOrders`: drop every cached equality
argument orientation. -/
def TermSharing.resetEqualityArgumentOrders (s : TermSharing) : TermSharing :=
  { s with eqArgOrderCache := 0 }

/-- Modelled from the spec: a fresh empty interning table. -/
def freshTermSharing : TermSharing :=
  { eqArgOrderCache := 0 }

/-- The global timer state (`Lib::Timer`): whether the timer thread has been
started, the start-of-attempt time point, and the resource-limit latch
(`EXIT_LOCK`). -/
structure TimerState where
  initialized : Bool
  startTime : Nat
  limitLocked : Bool
deriving DecidableEq

/-- Modelled from the spec: `Timer::reinitialise` (re)starts the timer
thread; charitably it is taken to also reset the start point and release the
latch (the strongest reading available to `reset`). -/
def Timer.reinitialise (_ : TimerState) : TimerState :=
  { initialized := true, startTime := 0, limitLocked := false }

/-- `Timer::resetStartTime`: measure elapsed time from now. -/
def Timer.resetStartTime (t : TimerState) : TimerState :=
  { t with startTime := 0 }

/-- `Timer::resetLimitEnforcement`: release the `EXIT_LOCK` latch. -/
def Timer.resetLimitEnforcement (t : TimerState) : TimerState :=
  { t with limitLocked := false }

/-- The ordering-scoped static caches reset one by one by the controller
(`Term`, `AtomicSort`, `PartialOrdering`, `TermPartialOrdering`,
`TermOrderingDiagram`, `EqualityProxyMono` static caches, and the KBO weight
cache epoch of `Term::invalidateKboWeightCache`).  `0` denotes the
cleared/invalidated state. -/
structure StaticCaches where
  termCache : Nat
  atomicSortCache : Nat
  partOrdCache : Nat
  termPartOrdCache : Nat
  todCache : Nat
  eqProxyCache : Nat
  kboWeightCache : Nat
deriving DecidableEq

/-- The whole mutable world the reset controller acts on: the environment
components (`env.signature`, `env.sharing`, `env.statistics`), the global
ordering handle, the static caches, the inference store, the
preprocessing-end marker of `Unit`, the timer, and the function-local
`static bool timer_initialized` flag of `prepareForNextProof`. -/
structure World where
  signature : Signature
  sharing : TermSharing
  statistics : Statistics
  ordering : Option Nat
  caches : StaticCaches
  inferenceStore : Nat
  preprocessingEnd : Nat
  timer : TimerState
  timerInitFlag : Bool
deriving DecidableEq

/-- `Api::prepareForNextProof` (the light, attempt-boundary reset),
transliterated statement by statement from `VampireAPI.cpp`:
timer-thread init (first call only), reset the start time, clear the
termination reason, zero the three attempt-scoped statistics counters, reset
the preprocessing-end marker, unset the global ordering, reset the six
static caches, zero every symbol's usage counter, invalidate the KBO weight
cache, reset the cached equality argument orders, release the limit latch. -/
def prepareForNextProof (w0 : World) : World :=
  let w1 := if w0.timerInitFlag then w0
            else { w0 with timer := Timer.reinitialise w0.timer, timerInitFlag := true }
  let w2 := { w1 with timer := Timer.resetStartTime w1.timer }
  let w3 := { w2 with statistics :=
      { w2.statistics with terminationReason := TerminationReason.UNKNOWN } }
  let w4 := { w3 with statistics :=
      { w3.statistics with
          activations := 0
          discardedNonRedundantClauses := 0
          inferencesSkippedDueToColors := 0 } }
  let w5 := { w4 with preprocessingEnd := 0 }
  let w6 := { w5 with ordering := none }
  let w7 := { w6 with caches :=
      { w6.caches with
          termCache := 0
          atomicSortCache := 0
          partOrdCache := 0
          termPartOrdCache := 0
          todCache := 0
          eqProxyCache := 0 } }
  let w8 := { w7 with signature :=
      { functions := w7.signature.functions.map Symbol.resetUsageCnt
        predicates := w7.signature.predicates.map Symbol.resetUsageCnt } }
  let w9 := { w8 with caches := { w8.caches with kboWeightCache := 0 } }
  let w10 := { w9 with sharing := w9.sharing.resetEqualityArgumentOrders }
  { w10 with timer := Timer.resetLimitEnforcement w10.timer }

/-- Modelled from the spec: a fresh empty signature with the built-in
equality predicate re-registered (as `reset` does after `new Signature()`). -/
def freshSignature : Signature :=
  Signature.addEquality { functions := [], predicates := [] }

/-- `Api::reset` (the full reset), transliterated statement by statement
from `VampireAPI.cpp`: reinitialise the timer, unset the global ordering,
reset the five kernel static caches and the shell static cache, reset the
inference store, then delete and recreate `env.sharing`, `env.signature`
(re-adding the equality predicate) and `env.statistics`.  Note: no statement
of `reset` touches the preprocessing-end marker or the KBO weight cache
epoch. -/
def reset (w0 : World) : World :=
  let w1 := { w0 with timer := Timer.reinitialise w0.timer }
  let w2 := { w1 with ordering := none }
  let w3 := { w2 with caches :=
      { w2.caches with
          termCache := 0
          atomicSortCache := 0
          partOrdCache := 0
          termPartOrdCache := 0
          todCache := 0 } }
  let w4 := { w3 with caches := { w3.caches with eqProxyCache := 0 } }
  let w5 := { w4 with inferenceStore := 0 }
  { w5 with
      signature := freshSignature
      sharing := freshTermSharing
      statistics := freshStatistics }

/-- The `switch (env.statistics->terminationReason)` of `Api::prove`
(`VampireAPI.cpp`), translating the engine's termination reason into the
surfaced `ProofResult`. -/
def classifyTermination : TerminationReason → ProofResult
  | TerminationReason.REFUTATION => ProofResult.PROOF
  | TerminationReason.SATISFIABLE => ProofResult.SATISFIABLE
  | TerminationReason.TIME_LIMIT => ProofResult.TIMEOUT
  | TerminationReason.INSTRUCTION_LIMIT => ProofResult.TIMEOUT
  | TerminationReason.MEMORY_LIMIT => ProofResult.MEMORY_LIMIT
  | TerminationReason.REFUTATION_NOT_FOUND => ProofResult.INCOMPLETE
  | _ => ProofResult.UNKNOWN

/-- `Api::prove`, with preprocessing and the saturation loop (external
collaborators) abstracted as a state transformer: run them, then classify
the termination reason they record. -/
def prove (runSaturation : World → World) (w : World) : ProofResult × World :=
  let w1 := runSaturation w
  (classifyTermination w1.statistics.terminationReason, w1)

/-- The spec's own wording of the outcome classification (§4.4), written
independently of the source switch, for comparison with it: proof found,
satisfiable, time limit (including the instruction limit), memory limit,
incomplete search, and "an unrecognized reason maps to unknown". -/
def specResultOf (t : TerminationReason) : ProofResult :=
  if t = TerminationReason.REFUTATION then ProofResult.PROOF
  else if t = TerminationReason.SATISFIABLE then ProofResult.SATISFIABLE
  else if t = TerminationReason.TIME_LIMIT ∨ t = TerminationReason.INSTRUCTION_LIMIT then
    ProofResult.TIMEOUT
  else if t = TerminationReason.MEMORY_LIMIT then ProofResult.MEMORY_LIMIT
  else if t = TerminationReason.REFUTATION_NOT_FOUND then ProofResult.INCOMPLETE
  else ProofResult.UNKNOWN

/-! ### Construction facade -/

/-- `Api::addFunction` (`VampireAPI.cpp`): register the symbol through the
signature, then install the default operator type on it, and return the
functor id. -/
def addFunction (name : String) (arity : Nat) (sig : Signature) : Nat × Signature :=
  let fs := sig.addFunction name arity
  (fs.1, fs.2.setFunctionTyped fs.1)

/-- `Api::addPredicate` (`VampireAPI.cpp`): same shape as `addFunction` on
the predicate side. -/
def addPredicate (name : String) (arity : Nat) (sig : Signature) : Nat × Signature :=
  let ps := sig.addPredicate name arity
  (ps.1, ps.2.setPredicateTyped ps.1)

/-- A term (`Kernel::TermList`): a variable or a function application. -/
inductive Trm
  | var (index : Nat)
  | app (functor : Nat) (args : List Trm)

/-- A literal: predicate id, polarity, argument terms. -/
structure Lit where
  pred : Nat
  positive : Bool
  args : List Trm

/-- Modelled from the spec: `Kernel::Term::create` is not under the API
sources; per the spec the builders are "pure constructors over
already-registered ids; they fail (return an error/empty/invalid marker) if
given an id outside the currently registered range". -/
def Term_create (sig : Signature) (functor : Nat) (args : List Trm) : Option Trm :=
  if functor < sig.functions.length then some (Trm.app functor args) else none

/-- Modelled from the spec: `Kernel::Term::createConstant` is
`Term::create` at arity zero. -/
def Term_createConstant (sig : Signature) (functor : Nat) : Option Trm :=
  Term_create sig functor []

/-- Modelled from the spec: `Kernel::Literal::create`, failing on a
predicate id outside the registered range. -/
def Literal_create (sig : Signature) (pred : Nat) (positive : Bool)
    (args : List Trm) : Option Lit :=
  if pred < sig.predicates.length then some ⟨pred, positive, args⟩ else none

/-- `Api::var`: an ordinary variable, no registration needed. -/
def var (index : Nat) : Trm :=
  Trm.var index

/-- `Api::constant` (`VampireAPI.cpp`): wrap `Term::createConstant`. -/
def constant (sig : Signature) (functor : Nat) : Option Trm :=
  Term_createConstant sig functor

/-- `Api::term` (`VampireAPI.cpp`): wrap `Term::create`. -/
def term (sig : Signature) (functor : Nat) (args : List Trm) : Option Trm :=
  Term_create sig functor args

/-- `Api::lit` (`VampireAPI.cpp`): wrap `Literal::create`. -/
def lit (sig : Signature) (pred : Nat) (positive : Bool) (args : List Trm) :
    Option Lit :=
  Literal_create sig pred positive args

/-- A first-order formula (`Kernel::Formula`), with the connectives the
facade builds: atoms, negation, junctions (AND/OR), binary connectives
(IMP/IFF), quantifiers (FORALL/EXISTS) and the constants. -/
inductive Formula
  | atomic (l : Lit)
  | negated (f : Formula)
  | junction (isAnd : Bool) (fs : List Formula)
  | binary (isIff : Bool) (lhs rhs : Formula)
  | quantified (isForall : Bool) (v : Nat) (body : Formula)
  | tru
  | fls

/-- `Api::atom`: `new AtomicFormula(l)`. -/
def atom (l : Lit) : Formula :=
  Formula.atomic l

/-- `Api::notF`: `new NegatedFormula(f)`. -/
def notF (f : Formula) : Formula :=
  Formula.negated f

/-- `Api::andF`: a conjunction; the source pushes onto a cons-list, so the
stored argument order is reversed. -/
def andF (fs : List Formula) : Formula :=
  Formula.junction true fs.reverse

/-- `Api::orF`: a disjunction, stored like `andF`. -/
def orF (fs : List Formula) : Formula :=
  Formula.junction false fs.reverse

/-- `Api::impF`: an implication. -/
def impF (lhs rhs : Formula) : Formula :=
  Formula.binary false lhs rhs

/-- `Api::iffF`: an equivalence. -/
def iffF (lhs rhs : Formula) : Formula :=
  Formula.binary true lhs rhs

/-- `Api::forallF`: a universally quantified formula. -/
def forallF (v : Nat) (f : Formula) : Formula :=
  Formula.quantified true v f

/-- `Api::existsF`: an existentially quantified formula. -/
def existsF (v : Nat) (f : Formula) : Formula :=
  Formula.quantified false v f

/-- A formula unit (`Kernel::FormulaUnit` under `FromInput(t)`): the stored
formula, the input-type tag and the `INPUT` rule tag. -/
structure FormulaUnit where
  formula : Formula
  inputType : UnitInputType
  rule : InferenceRule

/-- `Api::axiomF` (`VampireAPI.cpp`): `new FormulaUnit(f,
FromInput(UnitInputType::AXIOM))` — the caller's formula is stored
unchanged. -/
def axiomF (f : Formula) : FormulaUnit :=
  { formula := f, inputType := UnitInputType.AXIOM, rule := InferenceRule.INPUT }

/-- `Api::conjectureF` (`VampireAPI.cpp`): the conjecture is negated for
refutation-based proving and stored as `NEGATED_CONJECTURE`. -/
def conjectureF (f : Formula) : FormulaUnit :=
  { formula := Formula.negated f
    inputType := UnitInputType.NEGATED_CONJECTURE
    rule := InferenceRule.INPUT }

/-! ### C wrapper (`vampire_c_api.cpp`) -/

/-- The C enumeration `vampire_inference_rule_t`. -/
inductive CRule
  | INPUT
  | RESOLUTION
  | FACTORING
  | SUPERPOSITION
  | EQUALITY_RESOLUTION
  | EQUALITY_FACTORING
  | CLAUSIFY
  | OTHER
deriving DecidableEq

/-- The C enumeration `vampire_input_type_t`. -/
inductive CInputType
  | AXIOM
  | NEGATED_CONJECTURE
  | CONJECTURE
deriving DecidableEq

/-- `convert_inference_rule` (`vampire_c_api.cpp`): the seven recognized
kernel rules, everything else to `OTHER`. -/
def convert_inference_rule : InferenceRule → CRule
  | InferenceRule.INPUT => CRule.INPUT
  | InferenceRule.RESOLUTION => CRule.RESOLUTION
  | InferenceRule.FACTORING => CRule.FACTORING
  | InferenceRule.SUPERPOSITION => CRule.SUPERPOSITION
  | InferenceRule.EQUALITY_RESOLUTION => CRule.EQUALITY_RESOLUTION
  | InferenceRule.EQUALITY_FACTORING => CRule.EQUALITY_FACTORING
  | InferenceRule.CLAUSIFY => CRule.CLAUSIFY
  | _ => CRule.OTHER

/-- `convert_input_type` (`vampire_c_api.cpp`): unrecognized kernel input
types default to `AXIOM`. -/
def convert_input_type : UnitInputType → CInputType
  | UnitInputType.AXIOM => CInputType.AXIOM
  | UnitInputType.NEGATED_CONJECTURE => CInputType.NEGATED_CONJECTURE
  | UnitInputType.CONJECTURE => CInputType.CONJECTURE
  | _ => CInputType.AXIOM

/-- The C record `vampire_proof_step_t` (id, converted rule, converted
input type, premise-id array). -/
structure CProofStep where
  id : Nat
  rule : CRule
  inputType : CInputType
  premiseIds : List Nat
deriving DecidableEq

/-- `vampire_extract_proof` (`vampire_c_api.cpp`): a null refutation handle
or a null output pointer yields the error return `-1`; otherwise the C++
`extractProof` runs and its steps are converted and returned through the
output pointers with return value `0`.  (`malloc` failure paths are not
modelled: allocation is taken to succeed.) -/
def vampire_extract_proof (g : Dag) (refutation : Option Nat)
    (outStepsIsNull outCountIsNull : Bool) : Except Int (List CProofStep) :=
  if refutation.isNone || outStepsIsNull || outCountIsNull then
    Except.error (-1)
  else
    let cppSteps := extractProof g refutation
    Except.ok (cppSteps.map fun s =>
      { id := s.id
        rule := convert_inference_rule s.rule
        inputType := convert_input_type s.inputType
        premiseIds := s.premiseIds })

/-! ### Helper equations and concrete instances -/

/-- The signature after the light reset: the same symbols with usage
counters zeroed (the reset maps `resetUsageCnt` over both symbol lists and
touches the signature nowhere else). -/
theorem prepareForNextProof_signature (w : World) :
    (prepareForNextProof w).signature
      = { functions := w.signature.functions.map Symbol.resetUsageCnt
          predicates := w.signature.predicates.map Symbol.resetUsageCnt } := by
  by_cases h : w.timerInitFlag <;> simp [prepareForNextProof, h]

/-- The statistics object after the light reset: termination reason cleared,
the three attempt-scoped counters zeroed, the refutation handle untouched. -/
theorem prepareForNextProof_statistics (w : World) :
    (prepareForNextProof w).statistics
      = { terminationReason := TerminationReason.UNKNOWN
          activations := 0
          discardedNonRedundantClauses := 0
          inferencesSkippedDueToColors := 0
          refutation := w.statistics.refutation } := by
  by_cases h : w.timerInitFlag <;> simp [prepareForNextProof, h]

/-- A populated world left behind by a finished proof attempt: one function
and one predicate registered with nonzero usage counters, nonzero statistics
counters, stale caches, a nonzero preprocessing-end marker, an installed
ordering and a held limit latch. -/
def exampleWorld : World :=
  { signature :=
      { functions := [⟨"f", 1, 7, true⟩]
        predicates := [⟨"P", 1, 3, true⟩] }
    sharing := ⟨4⟩
    statistics :=
      { terminationReason := TerminationReason.REFUTATION
        activations := 5
        discardedNonRedundantClauses := 6
        inferencesSkippedDueToColors := 8
        refutation := some 9 }
    ordering := some 1
    caches := ⟨1, 2, 3, 4, 5, 6, 7⟩
    inferenceStore := 2
    preprocessingEnd := 5
    timer := ⟨true, 8, true⟩
    timerInitFlag := true }

theorem append_singleton_set (l : List Symbol) (s s' : Symbol) :
    (l ++ [s]).set l.length s' = l ++ [s'] := by
  induction l with
  | nil => rfl
  | cons a t ih => simp [List.set, ih]

theorem append_singleton_getD (l : List Symbol) (s d : Symbol) :
    (l ++ [s]).getD l.length d = s := by
  induction l with
  | nil => rfl
  | cons a t ih => simp [ih]

/-- Closed form of `Api::addFunction`: the returned id is the previous
function count and the new symbol is appended with its default type set. -/
theorem addFunction_eq (sig : Signature) (n : String) (a : Nat) :
    addFunction n a sig
      = (sig.functions.length,
         { functions := sig.functions ++ [⟨n, a, 0, true⟩]
           predicates := sig.predicates }) := by
  simp [addFunction, Signature.addFunction, Signature.setFunctionTyped,
    append_singleton_set, append_singleton_getD]

/-- Closed form of `Api::addPredicate`, mirroring `addFunction_eq`. -/
theorem addPredicate_eq (sig : Signature) (n : String) (a : Nat) :
    addPredicate n a sig
      = (sig.predicates.length,
         { functions := sig.functions
           predicates := sig.predicates ++ [⟨n, a, 0, true⟩] }) := by
  simp [addPredicate, Signature.addPredicate, Signature.setPredicateTyped,
    append_singleton_set, append_singleton_getD]

theorem getElem?_append_cons (l l2 : List Symbol) (s : Symbol) :
    (l ++ s :: l2)[l.length]? = some s := by
  induction l with
  | nil => simp
  | cons a t ih => simpa using ih

/-! ### Claims -/

/-- A three-unit proof DAG: unit 1 is an input, unit 2 is derived from 1,
and the refutation 3 is derived from 2 and 1, with the inference of 3
listing its premises in the order 2, 1 (ids are monotone along parent
edges, as the invariant requires). -/
def dagC1 : Dag :=
  [(1, ⟨InferenceRule.INPUT, UnitInputType.AXIOM, []⟩),
   (2, ⟨InferenceRule.GENERIC, UnitInputType.AXIOM, [1]⟩),
   (3, ⟨InferenceRule.GENERIC, UnitInputType.AXIOM, [2, 1]⟩)]

/-- Claim C1 states that in the sequence returned by `extractProof` every
premise id of a step refers to a step at a strictly earlier position, for
every DAG reachable from the refutation.  The code violates this: on
`dagC1` the returned order is `[2, 1, 3]`, where the step for unit 2 sits
at position 0 while its premise, unit 1, sits at position 1, so the
topological-order contract `topoOk` fails. -/
theorem claim_C1_topo_order_fails_on_dagC1 :
    (extractProof dagC1 (some 3)).map ProofStep.id = [2, 1, 3] ∧
    ((extractProof dagC1 (some 3)).getD 0
        ⟨0, InferenceRule.INPUT, UnitInputType.AXIOM, []⟩).premiseIds = [1] ∧
    topoOk (extractProof dagC1 (some 3)) = false := by
  decide

/-- Claim C2: after the light reset `prepareForNextProof`, every registered
function and predicate symbol's usage counter equals zero, and the
activation, discarded-non-redundant-clause and color-skip statistics
counters equal zero, regardless of their values before the call. -/
theorem claim_C2_light_reset_zeroes_counters (w : World) :
    (∀ s ∈ (prepareForNextProof w).signature.functions, s.usageCnt = 0) ∧
    (∀ s ∈ (prepareForNextProof w).signature.predicates, s.usageCnt = 0) ∧
    (prepareForNextProof w).statistics.activations = 0 ∧
    (prepareForNextProof w).statistics.discardedNonRedundantClauses = 0 ∧
    (prepareForNextProof w).statistics.inferencesSkippedDueToColors = 0 := by
  refine ⟨?_, ?_, ?_, ?_, ?_⟩
  · intro s hs
    rw [prepareForNextProof_signature] at hs
    simp only [List.mem_map] at hs
    obtain ⟨t, _, rfl⟩ := hs
    rfl
  · intro s hs
    rw [prepareForNextProof_signature] at hs
    simp only [List.mem_map] at hs
    obtain ⟨t, _, rfl⟩ := hs
    rfl
  · rw [prepareForNextProof_statistics]
  · rw [prepareForNextProof_statistics]
  · rw [prepareForNextProof_statistics]

/-- Witness for claim C2 at the populated `exampleWorld` (usage counters 7
and 3, statistics counters 5, 6, 8 before the call). -/
theorem claim_C2_witness :
    ({ name := "f", arity := 1, usageCnt := 0, typed := true } : Symbol).usageCnt = 0 ∧
    (prepareForNextProof exampleWorld).statistics.activations = 0 :=
  ⟨(claim_C2_light_reset_zeroes_counters exampleWorld).1 _ (by decide),
   (claim_C2_light_reset_zeroes_counters exampleWorld).2.2.1⟩

/-- Claim C3 states that the full `reset` performs every step of the light
reset — including resetting the preprocessing-end marker — before replacing
the signature, interning table and statistics.  The code does not: no
statement of `reset` touches `Unit`'s preprocessing-end marker (or the KBO
weight-cache epoch), so on `exampleWorld` (marker 5, weight epoch 7) the
marker and epoch survive the full reset even though the light reset clears
the marker and the replacement of the three environment objects does
happen. -/
theorem claim_C3_full_reset_misses_marker :
    (reset exampleWorld).preprocessingEnd = 5 ∧
    (prepareForNextProof exampleWorld).preprocessingEnd = 0 ∧
    (reset exampleWorld).caches.kboWeightCache = 7 ∧
    (reset exampleWorld).signature = freshSignature ∧
    (reset exampleWorld).sharing = freshTermSharing ∧
    (reset exampleWorld).statistics = freshStatistics := by
  decide

/-- Claim C4: for every refutation handle, `extractProof` returns one step
per reachable unit — the step count equals the size of the reachable set,
the id sequence is duplicate-free and enumerates exactly the reachable
units, and the refutation's own step is the last element. -/
theorem claim_C4_extract_counts_each_once_refutation_last
    (g : Dag) (r : Nat) (S : Finset Nat) (hS : ∀ x, x ∈ S ↔ Reach g r x) :
    (extractProof g (some r)).length = S.card ∧
    ((extractProof g (some r)).map ProofStep.id).Nodup ∧
    (∀ x, x ∈ (extractProof g (some r)).map ProofStep.id ↔ Reach g r x) ∧
    ((extractProof g (some r)).map ProofStep.id).getLast? = some r := by
  obtain ⟨hnd, hmem, hlast⟩ := extractProof_some_spec g r
  refine ⟨?_, hnd, hmem, hlast⟩
  have hset : ((extractProof g (some r)).map ProofStep.id).toFinset = S := by
    ext x
    rw [List.mem_toFinset, hmem, hS]
  have hcard := List.toFinset_card_of_nodup hnd
  rw [hset] at hcard
  rw [hcard, List.length_map]

/-- In the empty graph only the root itself is reachable. -/
theorem reach_nil_iff (x : Nat) : x ∈ ({0} : Finset Nat) ↔ Reach ([] : Dag) 0 x := by
  constructor
  · intro hx
    rw [Finset.mem_singleton] at hx
    exact hx ▸ Reach.refl
  · intro hx
    induction hx with
    | refl => simp
    | step _ hp _ => simp [infOf, findInf] at hp

/-- Witness for claim C4: the one-unit graph whose reachable set is `{0}`. -/
theorem claim_C4_witness :
    (extractProof ([] : Dag) (some 0)).length = ({0} : Finset Nat).card ∧
    ((extractProof ([] : Dag) (some 0)).map ProofStep.id).Nodup ∧
    (∀ x, x ∈ (extractProof ([] : Dag) (some 0)).map ProofStep.id ↔ Reach ([] : Dag) 0 x) ∧
    ((extractProof ([] : Dag) (some 0)).map ProofStep.id).getLast? = some 0 :=
  claim_C4_extract_counts_each_once_refutation_last [] 0 {0} reach_nil_iff

/-- Claim C5 states that requesting extraction with an absent refutation
yields a valid empty step sequence, not an error, at both entry points.
The C wrapper violates this: `vampire_extract_proof` groups a null
refutation with its null-output-pointer checks and returns the error code
`-1` instead of a successful empty result. -/
theorem claim_C5_counterexample_null_is_error :
    vampire_extract_proof [] none false false = Except.error (-1) ∧
    vampire_extract_proof [] none false false ≠ Except.ok [] :=
  ⟨rfl, fun h => nomatch h⟩

/-- Claim C5 as amended: the C++ `extractProof` returns the empty sequence
on a null refutation handle, while the C wrapper `vampire_extract_proof`
treats a null refutation as an invalid argument and returns `-1`, producing
no steps. -/
theorem claim_C5_null_refutation_handling (g : Dag) (b c : Bool) :
    extractProof g none = [] ∧
    vampire_extract_proof g none b c = Except.error (-1) :=
  ⟨rfl, rfl⟩

/-- Claim C6: the termination-reason classification inside `prove` is a
total function agreeing with the spec's table (`REFUTATION ↦ PROOF`,
`SATISFIABLE ↦ SATISFIABLE`, `TIME_LIMIT`/`INSTRUCTION_LIMIT ↦ TIMEOUT`,
`MEMORY_LIMIT ↦ MEMORY_LIMIT`, `REFUTATION_NOT_FOUND ↦ INCOMPLETE`), and
every unrecognized reason maps to `UNKNOWN` rather than failing. -/
theorem claim_C6_classification_total (t : TerminationReason)
    (runSaturation : World → World) (w : World) :
    classifyTermination t = specResultOf t ∧
    (prove runSaturation w).1
      = specResultOf (runSaturation w).statistics.terminationReason ∧
    (t ∉ [TerminationReason.REFUTATION, TerminationReason.SATISFIABLE,
          TerminationReason.TIME_LIMIT, TerminationReason.INSTRUCTION_LIMIT,
          TerminationReason.MEMORY_LIMIT, TerminationReason.REFUTATION_NOT_FOUND] →
      classifyTermination t = ProofResult.UNKNOWN) := by
  have htotal : ∀ u : TerminationReason, classifyTermination u = specResultOf u := by
    intro u
    cases u <;> rfl
  refine ⟨htotal t, htotal _, fun hmem => ?_⟩
  cases t <;> simp at hmem ⊢ <;> rfl

/-- Witness for claim C6 at the unrecognized reason `ACTIVATION_LIMIT`. -/
theorem claim_C6_witness :
    classifyTermination TerminationReason.ACTIVATION_LIMIT
      = specResultOf TerminationReason.ACTIVATION_LIMIT ∧
    classifyTermination TerminationReason.ACTIVATION_LIMIT = ProofResult.UNKNOWN :=
  ⟨(claim_C6_classification_total TerminationReason.ACTIVATION_LIMIT id exampleWorld).1,
   (claim_C6_classification_total TerminationReason.ACTIVATION_LIMIT id exampleWorld).2.2
     (by decide)⟩

/-- Claim C7: the term, constant and literal builders return the invalid
marker (`none`) whenever the symbol id lies outside the currently
registered range. -/
theorem claim_C7_builders_fail_out_of_range (sig : Signature) (f p : Nat)
    (pos : Bool) (args : List Trm)
    (hf : sig.functions.length ≤ f) (hp : sig.predicates.length ≤ p) :
    constant sig f = none ∧ term sig f args = none ∧ lit sig p pos args = none := by
  refine ⟨?_, ?_, ?_⟩ <;>
    simp [constant, term, lit, Term_createConstant, Term_create, Literal_create] <;>
    omega

/-- Witness for claim C7: one registered function and predicate, queried at
the out-of-range ids 3 and 2. -/
theorem claim_C7_witness :
    constant (Signature.mk [⟨"a", 0, 0, true⟩] [⟨"P", 1, 0, true⟩]) 3 = none ∧
    term (Signature.mk [⟨"a", 0, 0, true⟩] [⟨"P", 1, 0, true⟩]) 3 [] = none ∧
    lit (Signature.mk [⟨"a", 0, 0, true⟩] [⟨"P", 1, 0, true⟩]) 2 true [] = none :=
  claim_C7_builders_fail_out_of_range
    (Signature.mk [⟨"a", 0, 0, true⟩] [⟨"P", 1, 0, true⟩]) 3 2 true []
    (by decide) (by decide)

/-- Claim C8: registering the same name and arity twice without a reset
creates a second, independent symbol: the second id is fresh (the successor
of the first), both symbols are present in the table, and the symbol count
grows by two — for functions and predicates alike. -/
theorem claim_C8_duplicate_registration_distinct
    (sig : Signature) (n : String) (a : Nat) :
    (addFunction n a (addFunction n a sig).2).1 = (addFunction n a sig).1 + 1 ∧
    (addFunction n a sig).1 ≠ (addFunction n a (addFunction n a sig).2).1 ∧
    (addFunction n a (addFunction n a sig).2).2.functions.length
      = sig.functions.length + 2 ∧
    (addFunction n a (addFunction n a sig).2).2.functions[(addFunction n a sig).1]?
      = some ⟨n, a, 0, true⟩ ∧
    (addFunction n a (addFunction n a sig).2).2.functions[(addFunction n a (addFunction n a sig).2).1]?
      = some ⟨n, a, 0, true⟩ ∧
    (addPredicate n a (addPredicate n a sig).2).1 = (addPredicate n a sig).1 + 1 ∧
    (addPredicate n a (addPredicate n a sig).2).2.predicates.length
      = sig.predicates.length + 2 := by
  refine ⟨?_, ?_, ?_, ?_, ?_, ?_, ?_⟩
  · simp [addFunction_eq]
  · simp [addFunction_eq]
  · simp [addFunction_eq]
  · simpa [addFunction_eq, List.append_assoc] using
      getElem?_append_cons sig.functions [(⟨n, a, 0, true⟩ : Symbol)] ⟨n, a, 0, true⟩
  · simpa [addFunction_eq] using
      getElem?_append_cons (sig.functions ++ [(⟨n, a, 0, true⟩ : Symbol)]) []
        ⟨n, a, 0, true⟩
  · simp [addPredicate_eq]
  · simp [addPredicate_eq]

/-- Claim C9: the light reset leaves the symbol registrations unchanged —
every function and predicate keeps its position (id), name and arity, and
the symbol counts are unchanged; the signature is touched only to zero the
usage counters. -/
theorem claim_C9_light_reset_preserves_registrations (w : World) :
    ((prepareForNextProof w).signature.functions.map fun s => (s.name, s.arity))
      = (w.signature.functions.map fun s => (s.name, s.arity)) ∧
    ((prepareForNextProof w).signature.predicates.map fun s => (s.name, s.arity))
      = (w.signature.predicates.map fun s => (s.name, s.arity)) ∧
    (prepareForNextProof w).signature.functions.length = w.signature.functions.length ∧
    (prepareForNextProof w).signature.predicates.length = w.signature.predicates.length := by
  rw [prepareForNextProof_signature]
  refine ⟨?_, ?_, by simp, by simp⟩ <;>
    simp only [List.map_map] <;> rfl

/-- Claim C10: `conjectureF` stores the negation of the caller's formula
under input type `NEGATED_CONJECTURE`, while `axiomF` stores the formula
itself, unaltered, under input type `AXIOM`. -/
theorem claim_C10_conjecture_negated_axiom_unchanged (f : Formula) :
    (conjectureF f).formula = Formula.negated f ∧
    (conjectureF f).inputType = UnitInputType.NEGATED_CONJECTURE ∧
    (axiomF f).formula = f ∧
    (axiomF f).inputType = UnitInputType.AXIOM :=
  ⟨rfl, rfl, rfl, rfl⟩

end VampireLib
